import Mathlib

/-!
Shallow embedding of the `etl-job` scripts of `aced_etl_pod`
(`fhir_import.py` and `fhir_import_export.py`).

External effects (the arborist user-info endpoint, the three subprocess
invocations, the filesystem glob, the fhir store export and the bucket
upload) are modelled by a `World` oracle supplying their observable
results; each pipeline function additionally returns the ordered list of
external `Event`s it performed, so that the temporal claims can be stated
as properties of traces.
-/

namespace AcedEtl

/-- An element of `user['authz'][resource]`: a dict with keys
`method` and `service`, as compared against
`{'method': '*', 'service': 'sheepdog'}` and
`{'method': 'read-storage', 'service': '*'}` in the source. -/
structure AuthzEntry where
  method : String
  service : String
deriving DecidableEq, Repr

/-- The user document returned by arborist (`_user`): the script reads
`user['resources']` (a list of resource strings) and `user['authz']`
(a dict from resource string to a list of method/service entries). -/
structure User where
  resources : List String
  authz : List (String × List AuthzEntry)
deriving DecidableEq, Repr

/-- Dict operations `key in user['authz']` and `user['authz'][key]`: association-list lookup. -/
def lookupAuthz (u : User) (key : String) : Option (List AuthzEntry) :=
  (u.authz.find? (fun p => p.1 = key)).map (fun p => p.2)

/-- The accumulating output record `{'user': user, 'files': [], 'logs': []}`.
`objectId = none` models the absence of the `object_id` key; on the export
path `_main` sets `output['object_id']`, modelled by `objectId = some r`
where `r` is the (possibly `None`) value. -/
structure Output where
  user : User
  files : List String
  logs : List String
  objectId : Option (Option String)
deriving DecidableEq, Repr

/-- The `INPUT_DATA` blob: the scripts read `input_data['project_id']`,
`input_data.get('object_id', None)` and `input_data.get('method', None)`. -/
structure Input where
  projectId : Option String
  objectId : Option String
  method : Option String
deriving DecidableEq, Repr

/-- Oracle for external effects: the arborist user document, the return
codes of the three subprocesses, the captured output of `./load_all`,
the files found by `pathlib.Path(file_path).glob('*')`, and the results
of `fhir_get` / `cp` on the export path. -/
structure World where
  user : User
  downloadExit : Int
  unzipExit : Int
  loadExit : Int
  loadStderr : String
  loadStdout : String
  globFiles : List String
  fhirGetLogs : List String
  cpMsg : String
  cpObjectId : String
deriving DecidableEq, Repr

/-- External events performed by a run, in order. -/
inductive Event where
  | download (objectId : String)
  | unzip (objectId : String)
  | loadAll (study : String) (projectId : String)
  | fhirGet
  | cpUpload
  | printOut
deriving DecidableEq, Repr

/-- Translation of `_can_create(output, program, user)`, check by check,
threading the output record. -/
def canCreate (output : Output) (program : String) (user : User) :
    Output × Bool :=
  let canC := true
  let step1 : Output × Bool :=
    if ("/programs/" ++ program) ∈ user.resources then (output, canC)
    else ({ output with
            logs := output.logs ++
              ["/programs/" ++ program ++ " not found in user resources"] },
          false)
  let requiredResources : List String :=
    ["/services/sheepdog/submission/program",
     "/services/sheepdog/submission/project",
     "/programs/" ++ program ++ "/projects"]
  let step2 : Output × Bool :=
    requiredResources.foldl
      (fun acc r =>
        if r ∈ user.resources then
          ({ acc.1 with logs := acc.1.logs ++ ["HAS RESOURCE " ++ r] }, acc.2)
        else
          ({ acc.1 with
             logs := acc.1.logs ++ [r ++ " not found in user resources"] },
           false))
      step1
  let requiredServices : List String :=
    ["/programs/" ++ program ++ "/projects"]
  requiredServices.foldl
    (fun acc s =>
      match lookupAuthz user s with
      | none =>
          ({ acc.1 with
             logs := acc.1.logs ++ [s ++ " not found in user authz"] },
           false)
      | some entries =>
          if (⟨"*", "sheepdog"⟩ : AuthzEntry) ∈ entries then
            ({ acc.1 with
               logs := acc.1.logs ++
                 ["HAS SERVICE sheepdog on resource " ++ s] },
             acc.2)
          else
            ({ acc.1 with
               logs := acc.1.logs ++
                 ["sheepdog not found in user authz for " ++ s] },
             false))
    step2

/-- Translation of `_can_read(output, program, project, user)` from `fhir_import_export.py`. -/
def canRead (output : Output) (program project : String) (user : User) :
    Output × Bool :=
  let canR := true
  let step1 : Output × Bool :=
    if ("/programs/" ++ program) ∈ user.resources then (output, canR)
    else ({ output with
            logs := output.logs ++
              ["/programs/" ++ program ++ " not found in user resources"] },
          false)
  let requiredResources : List String :=
    ["/programs/" ++ program ++ "/projects/" ++ project]
  let step2 : Output × Bool :=
    requiredResources.foldl
      (fun acc r =>
        if r ∈ user.resources then
          ({ acc.1 with logs := acc.1.logs ++ ["HAS RESOURCE " ++ r] }, acc.2)
        else
          ({ acc.1 with
             logs := acc.1.logs ++ [r ++ " not found in user resources"] },
           false))
      step1
  let requiredServices : List String :=
    ["/programs/" ++ program ++ "/projects/" ++ project]
  requiredServices.foldl
    (fun acc s =>
      match lookupAuthz user s with
      | none =>
          ({ acc.1 with
             logs := acc.1.logs ++ [s ++ " not found in user authz"] },
           false)
      | some entries =>
          if (⟨"read-storage", "*"⟩ : AuthzEntry) ∈ entries then
            ({ acc.1 with
               logs := acc.1.logs ++
                 ["HAS SERVICE read-storage on resource " ++ s] },
             acc.2)
          else
            ({ acc.1 with
               logs := acc.1.logs ++
                 ["read-storage not found in user authz for " ++ s] },
             false))
    step2

/-- Python `str.split('-')` on the character list of the string:
`"".split('-') == ['']`, `"a--b".split('-') == ['a', '', 'b']`. -/
def splitDash : List Char → List (List Char)
  | [] => [[]]
  | c :: cs =>
    if c = '-' then [] :: splitDash cs
    else
      match splitDash cs with
      | [] => [[c]]
      | p :: ps => (c :: p) :: ps

/-- Splitting `project_id.split('-')` at the `String` level. -/
def splitOnDash (s : String) : List String :=
  (splitDash s.data).map (fun l => ⟨l⟩)

/-- Translation of `_get_program_project(input_data)`: asserts `'project_id' in input_data`
and `'-' in input_data['project_id']` (`none` models an assertion failure),
then returns `input_data['project_id'].split('-')`. -/
def getProgramProject (i : Input) : Option (List String) :=
  match i.projectId with
  | none => none
  | some pid => if '-' ∈ pid.data then some (splitOnDash pid) else none

/-- Python `str.lower()` as applied to the `method` field (ASCII case
folding, character by character). -/
def pyLower (s : String) : String := ⟨s.data.map Char.toLower⟩

/-- Reading `input_data.get('object_id', None)` followed by Python truthiness
(`if object_id:`): `None` and the empty string are falsy. -/
def truthy : Option String → Bool
  | none => false
  | some s => s ≠ ""

/-- Translation of `_download_and_unzip(object_id, file_path, output)`.
`subprocess.run` without capture leaves `result.stderr` and
`result.stdout` as `None`, so each failure branch appends exactly the
one `ERROR ...` line. Returns the updated output, the subprocess events
performed in order, and the boolean result. -/
def downloadAndUnzip (w : World) (objectId filePath : String)
    (output : Output) : Output × List Event × Bool :=
  if w.downloadExit ≠ 0 then
    ({ output with
       logs := output.logs ++
         ["ERROR DOWNLOADING " ++ objectId ++ " /tmp/" ++ objectId] },
     [Event.download objectId], false)
  else
    let output := { output with
      logs := output.logs ++ ["DOWNLOADED " ++ objectId ++ " " ++ filePath] }
    if w.unzipExit ≠ 0 then
      ({ output with
         logs := output.logs ++ ["ERROR UNZIPPING /tmp/" ++ objectId] },
       [Event.download objectId, Event.unzip objectId], false)
    else
      ({ output with logs := output.logs ++ ["UNZIPPED " ++ filePath] },
       [Event.download objectId, Event.unzip objectId], true)

/-- Translation of `_load_all(study, project_id, output)`: logs the command, runs
`./load_all` with `capture_output=True`, and appends the captured
stderr and stdout on both branches. -/
def loadAll (w : World) (study projectId : String) (output : Output) :
    Output × List Event × Bool :=
  let output := { output with
    logs := output.logs ++ ["LOADING: [\x27./load_all\x27]"] }
  if w.loadExit ≠ 0 then
    ({ output with
       logs := output.logs ++
         ["ERROR LOADING " ++ study, w.loadStderr, w.loadStdout] },
     [Event.loadAll study projectId], false)
  else
    ({ output with
       logs := output.logs ++
         ["LOADED " ++ study, w.loadStderr, w.loadStdout] },
     [Event.loadAll study projectId], true)

/-- Body shared by `fhir_import._main` (after the permission log line) and
`fhir_import_export._put`: permission check, optional download/unzip,
file listing, load. -/
def putOp (w : World) (i : Input) (program project : String)
    (output : Output) : Output × List Event :=
  let (output, canC) := canCreate output program w.user
  let output := { output with
    logs := output.logs ++
      ["CAN CREATE: " ++ (if canC then "True" else "False")] }
  let filePath := "/root/studies/" ++ project ++ "/"
  if canC then
    if truthy i.objectId then
      let oid := i.objectId.getD ""
      let (output, ev1, ok) := downloadAndUnzip w oid filePath output
      if ok then
        let output := { output with files := output.files ++ w.globFiles }
        let (output, ev2, _) :=
          loadAll w project (program ++ "-" ++ project) output
        (output, ev1 ++ ev2)
      else (output, ev1)
    else
      ({ output with logs := output.logs ++ ["OBJECT ID NOT FOUND"] }, [])
  else (output, [])

/-- Translation of `_get(input_data, output, program, project, user)` from
`fhir_import_export.py`: read-permission check, `fhir_get` export,
`cp` upload; returns the updated output, the events, and the
`object_id` result (`none` models Python `None`). -/
def getOp (w : World) (program project : String) (output : Output) :
    Output × List Event × Option String :=
  let (output, canR) := canRead output program project w.user
  if !canR then
    ({ output with
       logs := output.logs ++
         ["No read permissions on " ++ program ++ "-" ++ project] },
     [], none)
  else
    let output := { output with logs := output.logs ++ w.fhirGetLogs }
    let output := { output with logs := output.logs ++ [w.cpMsg] }
    (output, [Event.fhirGet, Event.cpUpload], some w.cpObjectId)

/-- Translation of `fhir_import._main`: builds the output record, parses `project_id`
(the two-element destructuring at the call site fails for any other
shape), runs the import pipeline, and prints the one `[out] ` result
line. `none` models a run that raises before printing. -/
def mainImport (w : World) (i : Input) : Option (Output × List Event) :=
  let user := w.user
  let output : Output := ⟨user, [], [], none⟩
  match getProgramProject i with
  | none => none
  | some parts =>
    match parts with
    | [program, project] =>
      let (output, evs) := putOp w i program project output
      some (output, evs ++ [Event.printOut])
    | _ => none

/-- Translation of `fhir_import_export._main`: parses `project_id`, asserts a truthy
`method`, dispatches on `method.lower()` to `_put` or `_get` (any other
method raises `unknown method`), and prints the one `[out] ` result
line. `none` models a run that raises before printing. -/
def mainFE (w : World) (i : Input) : Option (Output × List Event) :=
  let user := w.user
  let output : Output := ⟨user, [], [], none⟩
  match getProgramProject i with
  | none => none
  | some parts =>
    match parts with
    | [program, project] =>
      match i.method with
      | none => none
      | some m =>
        if m = "" then none
        else if pyLower m = "put" then
          let (output, evs) := putOp w i program project output
          some (output, evs ++ [Event.printOut])
        else if pyLower m = "get" then
          let (output, evs, oid) := getOp w program project output
          some ({ output with objectId := some oid },
                evs ++ [Event.printOut])
        else none
    | _ => none

/-- The key set of the serialized result line
`json.dumps(output, ...)`: the record is created with keys `user`,
`files`, `logs`; `object_id` is present exactly when `_main` assigned
`output['object_id']`. -/
def serializeKeys (o : Output) : List String :=
  ["user", "files", "logs"] ++
    (match o.objectId with | none => [] | some _ => ["object_id"])

/-- Joining with `'-'`: the left inverse of `splitDash`. -/
def joinDash : List (List Char) → List Char
  | [] => []
  | [a] => a
  | a :: b :: rest => a ++ '-' :: joinDash (b :: rest)

theorem splitDash_ne_nil (s : List Char) : splitDash s ≠ [] := by
  cases s with
  | nil => simp [splitDash]
  | cons c cs =>
    simp only [splitDash]
    split
    · simp
    · cases h : splitDash cs <;> simp

theorem length_splitDash (s : List Char) :
    (splitDash s).length = s.count '-' + 1 := by
  induction s with
  | nil => simp [splitDash]
  | cons c cs ih =>
    simp only [splitDash]
    by_cases hc : c = '-'
    · subst hc
      simp [List.count_cons, ih]
    · rcases h : splitDash cs with _ | ⟨p, ps⟩
      · exact absurd h (splitDash_ne_nil cs)
      · rw [h] at ih
        rw [if_neg hc]
        show ((c :: p) :: ps).length = List.count '-' (c :: cs) + 1
        have hne : '-' ≠ c := fun e => hc e.symm
        rw [List.count_cons_of_ne hne]
        simp only [List.length_cons] at ih ⊢
        omega

theorem joinDash_splitDash (s : List Char) : joinDash (splitDash s) = s := by
  induction s with
  | nil => rfl
  | cons c cs ih =>
    simp only [splitDash]
    by_cases hc : c = '-'
    · subst hc
      rcases h : splitDash cs with _ | ⟨p, ps⟩
      · exact absurd h (splitDash_ne_nil cs)
      · rw [h] at ih
        simpa [joinDash] using ih
    · rcases h : splitDash cs with _ | ⟨p, ps⟩
      · exact absurd h (splitDash_ne_nil cs)
      · rw [h] at ih
        cases ps with
        | nil => simpa [joinDash, hc, h] using ih
        | cons r rs => simpa [joinDash, hc, h] using ih

set_option maxHeartbeats 1600000 in
/-- Structural facts about `_can_create`: it only appends to `logs`,
appending one line per check of the two loops (plus one line when the
first check fails), and leaves `user` and `files` untouched. -/
theorem canCreate_state (o : Output) (p : String) (u : User) :
    (canCreate o p u).1.user = o.user ∧
    (canCreate o p u).1.files = o.files ∧
    (canCreate o p u).1.objectId = o.objectId ∧
    ∃ t, (canCreate o p u).1.logs = o.logs ++ t ∧
      t.length = 4 + (if ("/programs/" ++ p) ∈ u.resources then 0 else 1) := by
  simp only [canCreate, List.foldl]
  rcases hA : lookupAuthz u ("/programs/" ++ p ++ "/projects") with _ | entries <;>
  simp only [hA] <;>
  first
  | (split_ifs <;> simp_all)
  | simp_all

set_option maxHeartbeats 1600000 in
/-- C1 helper: the boolean returned by `_can_create`. -/
theorem canCreate_true_iff (o : Output) (p : String) (u : User) :
    (canCreate o p u).2 = true ↔
      ("/programs/" ++ p) ∈ u.resources ∧
      "/services/sheepdog/submission/program" ∈ u.resources ∧
      "/services/sheepdog/submission/project" ∈ u.resources ∧
      ("/programs/" ++ p ++ "/projects") ∈ u.resources ∧
      ∃ entries,
        lookupAuthz u ("/programs/" ++ p ++ "/projects") = some entries ∧
        (⟨"*", "sheepdog"⟩ : AuthzEntry) ∈ entries := by
  simp only [canCreate, List.foldl]
  rcases hA : lookupAuthz u ("/programs/" ++ p ++ "/projects") with _ | entries <;>
  simp only [hA] <;>
  first
  | (split_ifs <;> simp_all)
  | simp_all

set_option maxHeartbeats 1600000 in
/-- Structural facts about `_can_read`. -/
theorem canRead_state (o : Output) (p q : String) (u : User) :
    (canRead o p q u).1.user = o.user ∧
    (canRead o p q u).1.files = o.files ∧
    (canRead o p q u).1.objectId = o.objectId ∧
    ∃ t, (canRead o p q u).1.logs = o.logs ++ t := by
  simp only [canRead, List.foldl]
  rcases hA : lookupAuthz u ("/programs/" ++ p ++ "/projects/" ++ q)
    with _ | entries <;>
  simp only [hA] <;>
  first
  | (split_ifs <;> simp_all)
  | simp_all

/-- Behaviour of `_download_and_unzip`: result boolean, state discipline, events. -/
theorem downloadAndUnzip_spec (w : World) (oid fp : String) (o : Output) :
    ((downloadAndUnzip w oid fp o).2.2 = true ↔
      w.downloadExit = 0 ∧ w.unzipExit = 0) ∧
    (downloadAndUnzip w oid fp o).1.user = o.user ∧
    (downloadAndUnzip w oid fp o).1.files = o.files ∧
    (downloadAndUnzip w oid fp o).1.objectId = o.objectId ∧
    (∃ t, (downloadAndUnzip w oid fp o).1.logs = o.logs ++ t ∧ t ≠ []) ∧
    (downloadAndUnzip w oid fp o).2.1 =
      (if w.downloadExit = 0 then [Event.download oid, Event.unzip oid]
       else [Event.download oid]) := by
  simp only [downloadAndUnzip]
  split_ifs <;> simp_all [List.append_assoc]

/-- Behaviour of `_load_all`: result boolean, state discipline, events. -/
theorem loadAll_spec (w : World) (s pid : String) (o : Output) :
    ((loadAll w s pid o).2.2 = true ↔ w.loadExit = 0) ∧
    (loadAll w s pid o).1.user = o.user ∧
    (loadAll w s pid o).1.files = o.files ∧
    (loadAll w s pid o).1.objectId = o.objectId ∧
    (∃ t, (loadAll w s pid o).1.logs = o.logs ++ t ∧ t ≠ []) ∧
    (loadAll w s pid o).2.1 = [Event.loadAll s pid] := by
  simp only [loadAll]
  split_ifs <;> simp_all [List.append_assoc]

set_option maxHeartbeats 2000000 in
set_option maxRecDepth 16000 in
/-- Behaviour of `_put` (and of the body of `fhir_import._main`): state discipline, the
final `files` list, and the exact subprocess trace as a function of the
permission boolean, the presence of `object_id`, and the exit codes. -/
theorem putOp_spec (w : World) (i : Input) (prog proj : String)
    (o : Output) :
    (putOp w i prog proj o).1.user = o.user ∧
    (putOp w i prog proj o).1.objectId = o.objectId ∧
    (∃ t, (putOp w i prog proj o).1.logs = o.logs ++ t) ∧
    (putOp w i prog proj o).1.files =
      (if (canCreate o prog w.user).2 = true ∧ truthy i.objectId = true ∧
          w.downloadExit = 0 ∧ w.unzipExit = 0
       then o.files ++ w.globFiles else o.files) ∧
    (putOp w i prog proj o).2 =
      (if (canCreate o prog w.user).2 = true then
        if truthy i.objectId = true then
          if w.downloadExit = 0 then
            if w.unzipExit = 0 then
              [Event.download (i.objectId.getD ""),
               Event.unzip (i.objectId.getD ""),
               Event.loadAll proj (prog ++ "-" ++ proj)]
            else
              [Event.download (i.objectId.getD ""),
               Event.unzip (i.objectId.getD "")]
          else [Event.download (i.objectId.getD "")]
        else []
       else []) := by
  rcases hcc : canCreate o prog w.user with ⟨o1, cc⟩
  have hs := canCreate_state o prog w.user
  rw [hcc] at hs
  obtain ⟨hu, hf, hoid, t, hlogs, -⟩ := hs
  simp only at hu hf hoid hlogs
  simp only [putOp, hcc]
  cases cc with
  | false => simp [hu, hf, hoid, hlogs]
  | true =>
    cases ht : truthy i.objectId with
    | false => simp [ht, hu, hf, hoid, hlogs]
    | true =>
      simp only [downloadAndUnzip, loadAll, ht]
      split_ifs <;> simp_all [List.append_assoc]

set_option maxHeartbeats 1600000 in
/-- Behaviour of `_get`: state discipline, events, and the returned `object_id`. -/
theorem getOp_spec (w : World) (prog proj : String) (o : Output) :
    (getOp w prog proj o).1.user = o.user ∧
    (getOp w prog proj o).1.files = o.files ∧
    (getOp w prog proj o).1.objectId = o.objectId ∧
    (∃ t, (getOp w prog proj o).1.logs = o.logs ++ t) ∧
    (getOp w prog proj o).2.1 =
      (if (canRead o prog proj w.user).2 = true
       then [Event.fhirGet, Event.cpUpload] else []) ∧
    ((getOp w prog proj o).2.2 = none ↔
      (canRead o prog proj w.user).2 = false) := by
  rcases hcr : canRead o prog proj w.user with ⟨o1, cr⟩
  have hs := canRead_state o prog proj w.user
  rw [hcr] at hs
  obtain ⟨hu, hf, hoid, t, hlogs⟩ := hs
  simp only [getOp, hcr]
  cases cr <;> simp_all [List.append_assoc]

/-- C1: `_can_create` returns `True` if and only if every one of its flat
membership checks passes: `/programs/{program}` is in `user['resources']`;
each of `/services/sheepdog/submission/program`,
`/services/sheepdog/submission/project` and `/programs/{program}/projects`
is in `user['resources']`; `/programs/{program}/projects` is a key of
`user['authz']`; and the entry with method `*` and service `sheepdog` is a
member of its authz list. The checks are a plain conjunction with no
short-circuit: every looped check appends its log line regardless of
earlier failures, so the number of appended log lines (four, plus one when
the first check fails) does not depend on the outcome of any other check. -/
theorem C1_canCreate_flat_membership (o : Output) (p : String) (u : User) :
    ((canCreate o p u).2 = true ↔
      ("/programs/" ++ p) ∈ u.resources ∧
      "/services/sheepdog/submission/program" ∈ u.resources ∧
      "/services/sheepdog/submission/project" ∈ u.resources ∧
      ("/programs/" ++ p ++ "/projects") ∈ u.resources ∧
      ∃ entries,
        lookupAuthz u ("/programs/" ++ p ++ "/projects") = some entries ∧
        (⟨"*", "sheepdog"⟩ : AuthzEntry) ∈ entries) ∧
    (canCreate o p u).1.logs.length =
      o.logs.length + 4 +
        (if ("/programs/" ++ p) ∈ u.resources then 0 else 1) := by
  refine ⟨canCreate_true_iff o p u, ?_⟩
  obtain ⟨-, -, -, t, ht, hlen⟩ := canCreate_state o p u
  rw [ht, List.length_append, hlen, ← Nat.add_assoc]

/-- C5: `_download_and_unzip` returns `True` iff both the download and the
unzip subprocess exit with code 0, and `_load_all` returns `True` iff the
load subprocess exits with code 0; the booleans are a function of the exit
codes alone, for every output record and every argument string. -/
theorem C5_subprocess_exit_booleans (w : World) (oid fp s pid : String)
    (o o2 : Output) :
    ((downloadAndUnzip w oid fp o).2.2 = true ↔
      w.downloadExit = 0 ∧ w.unzipExit = 0) ∧
    ((loadAll w s pid o2).2.2 = true ↔ w.loadExit = 0) :=
  ⟨(downloadAndUnzip_spec w oid fp o).1, (loadAll_spec w s pid o2).1⟩

/-- Relation stating that `o2` extends `o` by appending log entries at the end, keeping the
existing entries and their order, and leaves `user` unchanged. -/
def appendsOnly (o o2 : Output) : Prop :=
  (∃ t, o2.logs = o.logs ++ t) ∧ o2.user = o.user

/-- C8: every operation of a run — `_can_create`, `_can_read`,
`_download_and_unzip`, `_load_all`, `_get`, `_put` — only appends new
entries at the end of `output['logs']`, leaving the existing entries and
their order unchanged, and none of them modifies `output['user']`. -/
theorem C8_logs_append_only (o : Output) (w : World) (i : Input)
    (prog proj oid fp s pid : String) :
    appendsOnly o (canCreate o prog w.user).1 ∧
    appendsOnly o (canRead o prog proj w.user).1 ∧
    appendsOnly o (downloadAndUnzip w oid fp o).1 ∧
    appendsOnly o (loadAll w s pid o).1 ∧
    appendsOnly o (getOp w prog proj o).1 ∧
    appendsOnly o (putOp w i prog proj o).1 := by
  obtain ⟨hu1, -, -, t1, hl1, -⟩ := canCreate_state o prog w.user
  obtain ⟨hu2, -, -, t2, hl2⟩ := canRead_state o prog proj w.user
  obtain ⟨-, hu3, -, -, ⟨t3, hl3, -⟩, -⟩ := downloadAndUnzip_spec w oid fp o
  obtain ⟨-, hu4, -, -, ⟨t4, hl4, -⟩, -⟩ := loadAll_spec w s pid o
  obtain ⟨hu5, -, -, ⟨t5, hl5⟩, -, -⟩ := getOp_spec w prog proj o
  obtain ⟨hu6, -, ⟨t6, hl6⟩, -, -⟩ := putOp_spec w i prog proj o
  exact ⟨⟨⟨t1, hl1⟩, hu1⟩, ⟨⟨t2, hl2⟩, hu2⟩, ⟨⟨t3, hl3⟩, hu3⟩,
    ⟨⟨t4, hl4⟩, hu4⟩, ⟨⟨t5, hl5⟩, hu5⟩, ⟨⟨t6, hl6⟩, hu6⟩⟩

/-- Helper for C6: a character list with exactly one dash splits into
exactly two pieces whose dash-join is the original list. -/
theorem splitDash_one_dash (s : List Char) (h : s.count '-' = 1) :
    ∃ a b, splitDash s = [a, b] ∧ a ++ '-' :: b = s := by
  have hlen := length_splitDash s
  rw [h] at hlen
  rcases hsp : splitDash s with _ | ⟨a, rest⟩
  · exact absurd hsp (splitDash_ne_nil s)
  · rcases rest with _ | ⟨b, rest2⟩
    · rw [hsp] at hlen; simp at hlen
    · rcases rest2 with _ | ⟨c, rest3⟩
      · refine ⟨a, b, rfl, ?_⟩
        have hj := joinDash_splitDash s
        rw [hsp] at hj
        simpa [joinDash] using hj
      · rw [hsp] at hlen; simp at hlen

/-- C6: parsing of `input_data['project_id']` succeeds exactly when the
string contains exactly one `-`: then `_get_program_project` yields a pair
`(program, project)` with `program + '-' + project` equal to the original
`project_id`; for two or more `-` the assertion inside
`_get_program_project` still passes but the result has at least three
elements, so the two-element destructuring at the call site fails; and for
no `-` the assertion fails. -/
theorem C6_project_id_parsing (pid : String) (i : Input)
    (hi : i.projectId = some pid) :
    (pid.data.count '-' = 1 →
      ∃ a b, getProgramProject i = some [a, b] ∧ a ++ "-" ++ b = pid) ∧
    (2 ≤ pid.data.count '-' →
      ∃ parts, getProgramProject i = some parts ∧ 3 ≤ parts.length) ∧
    (pid.data.count '-' = 0 → getProgramProject i = none) := by
  refine ⟨?_, ?_, ?_⟩
  · intro h1
    obtain ⟨a, b, hsp, hj⟩ := splitDash_one_dash pid.data h1
    have hmem : '-' ∈ pid.data := List.count_pos_iff.mp (by omega)
    refine ⟨⟨a⟩, ⟨b⟩, ?_, ?_⟩
    · simp [getProgramProject, hi, hmem, splitOnDash, hsp]
    · apply String.ext
      simp only [String.data_append]
      rw [← hj]
      simp
  · intro h2
    have hmem : '-' ∈ pid.data := List.count_pos_iff.mp (by omega)
    refine ⟨splitOnDash pid, ?_, ?_⟩
    · simp [getProgramProject, hi, hmem]
    · have hlen := length_splitDash pid.data
      simp only [splitOnDash, List.length_map]
      omega
  · intro h0
    have hmem : '-' ∉ pid.data := List.count_eq_zero.mp h0
    simp [getProgramProject, hi, hmem]

/-- C6 witness: at the concrete input `project_id = "a-b"` the parse
succeeds with `("a", "b")` and the round trip holds. -/
theorem C6_project_id_parsing_witness :
    "a-b".data.count '-' = 1 ∧
    ∃ a b,
      getProgramProject ⟨some "a-b", none, none⟩ = some [a, b] ∧
      a ++ "-" ++ b = "a-b" :=
  ⟨by decide,
   (C6_project_id_parsing "a-b" ⟨some "a-b", none, none⟩ rfl).1 (by decide)⟩

/-- A completed run of `fhir_import._main` is exactly: a two-part parse of
`project_id`, the `_put` body on the fresh output record, then the single
result print. -/
theorem mainImport_eq (w : World) (i : Input) (out : Output)
    (tr : List Event) (h : mainImport w i = some (out, tr)) :
    ∃ program project,
      getProgramProject i = some [program, project] ∧
      out = (putOp w i program project ⟨w.user, [], [], none⟩).1 ∧
      tr = (putOp w i program project ⟨w.user, [], [], none⟩).2 ++
        [Event.printOut] := by
  rcases hg : getProgramProject i with _ | parts
  · simp [mainImport, hg] at h
  · rcases parts with _ | ⟨a, _ | ⟨b, _ | ⟨c, rest⟩⟩⟩
    · simp [mainImport, hg] at h
    · simp [mainImport, hg] at h
    · rcases hp : putOp w i a b ⟨w.user, [], [], none⟩ with ⟨o1, evs⟩
      simp only [mainImport, hg, hp, Option.some.injEq, Prod.mk.injEq] at h
      exact ⟨a, b, rfl, by rw [hp, ← h.1], by rw [hp, ← h.2]⟩
    · simp [mainImport, hg] at h

/-- A completed run of `fhir_import_export._main` is exactly: a two-part
parse of `project_id`, a truthy `method`, then either the `_put` body or
the `_get` body (which assigns `output['object_id']`), then the single
result print. -/
theorem mainFE_eq (w : World) (i : Input) (out : Output)
    (tr : List Event) (h : mainFE w i = some (out, tr)) :
    ∃ program project m,
      getProgramProject i = some [program, project] ∧
      i.method = some m ∧ m ≠ "" ∧
      ((pyLower m = "put" ∧
        out = (putOp w i program project ⟨w.user, [], [], none⟩).1 ∧
        tr = (putOp w i program project ⟨w.user, [], [], none⟩).2 ++
          [Event.printOut]) ∨
       (pyLower m ≠ "put" ∧ pyLower m = "get" ∧
        out = { (getOp w program project ⟨w.user, [], [], none⟩).1 with
                objectId :=
                  some (getOp w program project ⟨w.user, [], [], none⟩).2.2 } ∧
        tr = (getOp w program project ⟨w.user, [], [], none⟩).2.1 ++
          [Event.printOut])) := by
  rcases hg : getProgramProject i with _ | parts
  · simp [mainFE, hg] at h
  · rcases parts with _ | ⟨a, _ | ⟨b, _ | ⟨c, rest⟩⟩⟩
    · simp [mainFE, hg] at h
    · simp [mainFE, hg] at h
    · rcases hm : i.method with _ | m
      · simp [mainFE, hg, hm] at h
      · by_cases hme : m = ""
        · simp [mainFE, hg, hm, hme] at h
        · by_cases hput : pyLower m = "put"
          · rcases hp : putOp w i a b ⟨w.user, [], [], none⟩ with ⟨o1, evs⟩
            simp only [mainFE, hg, hm, hp] at h
            rw [if_neg hme, if_pos hput] at h
            simp only [Option.some.injEq, Prod.mk.injEq] at h
            exact ⟨a, b, m, rfl, rfl, hme,
              Or.inl ⟨hput, by rw [hp, ← h.1], by rw [hp, ← h.2]⟩⟩
          · by_cases hget : pyLower m = "get"
            · rcases hp : getOp w a b ⟨w.user, [], [], none⟩
                with ⟨o1, evs, oid⟩
              simp only [mainFE, hg, hm, hp] at h
              rw [if_neg hme, if_neg hput, if_pos hget] at h
              simp only [Option.some.injEq, Prod.mk.injEq] at h
              exact ⟨a, b, m, rfl, rfl, hme,
                Or.inr ⟨hput, hget, by rw [hp, ← h.1], by rw [hp, ← h.2]⟩⟩
            · simp [mainFE, hg, hm, hme, hput, hget] at h
    · simp [mainFE, hg] at h

/-- A user document granting every permission the scripts check for
program `aced` and project `study`. -/
def userOk : User :=
  ⟨["/programs/aced", "/services/sheepdog/submission/program",
    "/services/sheepdog/submission/project", "/programs/aced/projects",
    "/programs/aced/projects/study"],
   [("/programs/aced/projects", [⟨"*", "sheepdog"⟩]),
    ("/programs/aced/projects/study", [⟨"read-storage", "*"⟩])]⟩

/-- A world where every subprocess succeeds. -/
def worldOk : World :=
  ⟨userOk, 0, 0, 0, "stderr text", "stdout text",
   ["/root/studies/study/meta.json"], ["fhir export log"],
   "cp upload message", "uploaded-object"⟩

/-- A world whose download subprocess exits nonzero. -/
def worldDownFail : World :=
  { worldOk with downloadExit := 1 }

/-- Concrete `INPUT_DATA` for an import run. -/
def inputPut : Input := ⟨some "aced-study", some "oid1", some "put"⟩

/-- Concrete `INPUT_DATA` for an export run. -/
def inputGet : Input := ⟨some "aced-study", none, some "get"⟩

/-- The fallback pair used only to extract concrete run results. -/
def emptyRun : Output × List Event := (⟨userOk, [], [], none⟩, [])

def runPutOut : Output := ((mainImport worldOk inputPut).getD emptyRun).1

def runPutTr : List Event := ((mainImport worldOk inputPut).getD emptyRun).2

def runDownFailOut : Output :=
  ((mainImport worldDownFail inputPut).getD emptyRun).1

def runDownFailTr : List Event :=
  ((mainImport worldDownFail inputPut).getD emptyRun).2

def runGetOut : Output := ((mainFE worldOk inputGet).getD emptyRun).1

def runGetTr : List Event := ((mainFE worldOk inputGet).getD emptyRun).2

def runFEPutOut : Output := ((mainFE worldOk inputPut).getD emptyRun).1

def runFEPutTr : List Event := ((mainFE worldOk inputPut).getD emptyRun).2

/-- C2: on the import path the external loader is never invoked unless the
authorization check returned True, a (truthy) object_id was present in the
input data, and the download-and-unzip step returned True: every completed
run whose trace contains a load event had a truthy `object_id`, download
and unzip exit codes 0 (equivalently `_download_and_unzip` returned True),
and a `_can_create` that returned True on the run's output record. -/
theorem C2_loader_only_after_guards (w : World) (i : Input) (out : Output)
    (tr : List Event) (s p : String)
    (h : mainImport w i = some (out, tr))
    (hl : Event.loadAll s p ∈ tr) :
    truthy i.objectId = true ∧ w.downloadExit = 0 ∧ w.unzipExit = 0 ∧
    ∃ program,
      getProgramProject i = some [program, s] ∧
      (canCreate ⟨w.user, [], [], none⟩ program w.user).2 = true := by
  obtain ⟨prog, proj, hg, -, htr⟩ := mainImport_eq w i out tr h
  obtain ⟨-, -, -, -, hev⟩ := putOp_spec w i prog proj ⟨w.user, [], [], none⟩
  rw [hev] at htr
  subst htr
  split_ifs at hl with h1 h2 h3 h4 <;> simp at hl
  obtain ⟨hs, hp2⟩ := hl
  exact ⟨h2, h3, h4, prog, by rw [hg, hs], h1⟩

/-- C2 witness: a fully successful concrete import run whose trace contains
the load event. -/
theorem C2_loader_only_after_guards_witness :
    truthy inputPut.objectId = true ∧ worldOk.downloadExit = 0 ∧
    worldOk.unzipExit = 0 ∧
    ∃ program,
      getProgramProject inputPut = some [program, "study"] ∧
      (canCreate ⟨worldOk.user, [], [], none⟩ program worldOk.user).2
        = true :=
  C2_loader_only_after_guards worldOk inputPut runPutOut runPutTr "study"
    "aced-study" rfl (by decide)

/-- C3: a nonzero subprocess exit code causes exactly "append log lines,
skip the remaining steps": a failing download appends exactly the one
`ERROR DOWNLOADING` line, returns only the download event (the unzip
subprocess is not run) and no unzip event occurs in the run's trace; a
failing unzip appends exactly the `DOWNLOADED` and `ERROR UNZIPPING`
lines; when download-and-unzip fails the file listing is not taken
(`output['files']` stays empty) and `_load_all` is not run; a failing
load appends exactly the `LOADING`, `ERROR LOADING` and captured output
lines. -/
theorem C3_nonzero_exit_error_handling (w : World) (i : Input)
    (out : Output) (tr : List Event) (oid fp s pid : String) (o : Output)
    (h : mainImport w i = some (out, tr)) :
    (w.downloadExit ≠ 0 →
      (downloadAndUnzip w oid fp o).1.logs =
        o.logs ++ ["ERROR DOWNLOADING " ++ oid ++ " /tmp/" ++ oid] ∧
      (downloadAndUnzip w oid fp o).2.1 = [Event.download oid] ∧
      (∀ x, Event.unzip x ∉ tr)) ∧
    (w.downloadExit = 0 → w.unzipExit ≠ 0 →
      (downloadAndUnzip w oid fp o).1.logs =
        o.logs ++ ["DOWNLOADED " ++ oid ++ " " ++ fp,
          "ERROR UNZIPPING /tmp/" ++ oid]) ∧
    (¬ (w.downloadExit = 0 ∧ w.unzipExit = 0) →
      out.files = [] ∧ ∀ x y, Event.loadAll x y ∉ tr) ∧
    (w.loadExit ≠ 0 →
      (loadAll w s pid o).1.logs =
        o.logs ++ ["LOADING: [\x27./load_all\x27]", "ERROR LOADING " ++ s,
          w.loadStderr, w.loadStdout]) := by
  obtain ⟨prog, proj, hg, hout, htr⟩ := mainImport_eq w i out tr h
  obtain ⟨-, -, -, hfiles, hev⟩ := putOp_spec w i prog proj ⟨w.user, [], [], none⟩
  rw [hev] at htr
  subst htr
  refine ⟨?_, ?_, ?_, ?_⟩
  · intro hd
    refine ⟨by simp [downloadAndUnzip, hd], by simp [downloadAndUnzip, hd],
      ?_⟩
    intro x hx
    split_ifs at hx <;> simp_all
  · intro hd hu
    simp [downloadAndUnzip, hd, hu, List.append_assoc]
  · intro hdu
    constructor
    · rw [hout, hfiles]
      split_ifs with hcond
      · exact absurd ⟨hcond.2.2.1, hcond.2.2.2⟩ hdu
      · rfl
    · intro x y hx
      split_ifs at hx <;> simp_all
  · intro hl
    simp [loadAll, hl, List.append_assoc]

/-- C3 witness: a concrete run with a failing download subprocess. -/
theorem C3_nonzero_exit_error_handling_witness :
    (worldDownFail.downloadExit ≠ 0 →
      (downloadAndUnzip worldDownFail "oid1" "/root/studies/study/"
        ⟨userOk, [], [], none⟩).1.logs =
        [] ++ ["ERROR DOWNLOADING " ++ "oid1" ++ " /tmp/" ++ "oid1"] ∧
      (downloadAndUnzip worldDownFail "oid1" "/root/studies/study/"
        ⟨userOk, [], [], none⟩).2.1 = [Event.download "oid1"] ∧
      (∀ x, Event.unzip x ∉ runDownFailTr)) ∧
    (worldDownFail.downloadExit = 0 → worldDownFail.unzipExit ≠ 0 →
      (downloadAndUnzip worldDownFail "oid1" "/root/studies/study/"
        ⟨userOk, [], [], none⟩).1.logs =
        [] ++ ["DOWNLOADED " ++ "oid1" ++ " " ++ "/root/studies/study/",
          "ERROR UNZIPPING /tmp/" ++ "oid1"]) ∧
    (¬ (worldDownFail.downloadExit = 0 ∧ worldDownFail.unzipExit = 0) →
      runDownFailOut.files = [] ∧
      ∀ x y, Event.loadAll x y ∉ runDownFailTr) ∧
    (worldDownFail.loadExit ≠ 0 →
      (loadAll worldDownFail "study" "aced-study"
        ⟨userOk, [], [], none⟩).1.logs =
        [] ++ ["LOADING: [\x27./load_all\x27]", "ERROR LOADING " ++ "study",
          worldDownFail.loadStderr, worldDownFail.loadStdout]) :=
  C3_nonzero_exit_error_handling worldDownFail inputPut runDownFailOut
    runDownFailTr "oid1" "/root/studies/study/" "study" "aced-study"
    ⟨userOk, [], [], none⟩ rfl

/-- Proposition that the download invocation is required to precede the unzip invocation:
in every completed import run whose trace contains an unzip event, the
download event for the same object occurs and the ordered pair
download-then-unzip is a subsequence of the trace. -/
def unzipRequiresPriorDownload : Prop :=
  ∀ (w : World) (i : Input) (out : Output) (tr : List Event) (x : String),
    mainImport w i = some (out, tr) → Event.unzip x ∈ tr →
    List.Sublist [Event.download x, Event.unzip x] tr

/-- C4 counterexample: the negation of "no subprocess invocation is
required to precede another" holds — the unzip subprocess invocation
requires a prior download invocation in every completed import run. -/
theorem C4_no_order_counterexample : unzipRequiresPriorDownload := by
  intro w i out tr x h hx
  obtain ⟨prog, proj, hg, -, htr⟩ := mainImport_eq w i out tr h
  obtain ⟨-, -, -, -, hev⟩ := putOp_spec w i prog proj ⟨w.user, [], [], none⟩
  rw [hev] at htr
  subst htr
  split_ifs at hx ⊢ <;> simp at hx <;> subst hx <;>
  exact List.sublist_append_left _ _

/-- C4 amended: the subprocess invocations of an import run are
synchronous and totally ordered — every completed run's trace is the
print alone, or download then print, or download then unzip then print,
or download, unzip, load, print, in that order. -/
theorem C4_subprocesses_ordered (w : World) (i : Input) (out : Output)
    (tr : List Event) (h : mainImport w i = some (out, tr)) :
    tr = [Event.printOut] ∨
    ∃ oid, oid = i.objectId.getD "" ∧
      (tr = [Event.download oid, Event.printOut] ∨
       tr = [Event.download oid, Event.unzip oid, Event.printOut] ∨
       ∃ program project,
         getProgramProject i = some [program, project] ∧
         tr = [Event.download oid, Event.unzip oid,
               Event.loadAll project (program ++ "-" ++ project),
               Event.printOut]) := by
  obtain ⟨prog, proj, hg, -, htr⟩ := mainImport_eq w i out tr h
  obtain ⟨-, -, -, -, hev⟩ := putOp_spec w i prog proj ⟨w.user, [], [], none⟩
  rw [hev] at htr
  split_ifs at htr
  · exact Or.inr ⟨_, rfl, Or.inr (Or.inr ⟨prog, proj, hg, htr⟩)⟩
  · exact Or.inr ⟨_, rfl, Or.inr (Or.inl htr)⟩
  · exact Or.inr ⟨_, rfl, Or.inl htr⟩
  · exact Or.inl htr
  · exact Or.inl htr

/-- C4 witness: the fully successful concrete import run realizes the
download-unzip-load-print order. -/
theorem C4_subprocesses_ordered_witness :
    runPutTr = [Event.printOut] ∨
    ∃ oid, oid = inputPut.objectId.getD "" ∧
      (runPutTr = [Event.download oid, Event.printOut] ∨
       runPutTr = [Event.download oid, Event.unzip oid, Event.printOut] ∨
       ∃ program project,
         getProgramProject inputPut = some [program, project] ∧
         runPutTr = [Event.download oid, Event.unzip oid,
               Event.loadAll project (program ++ "-" ++ project),
               Event.printOut]) :=
  C4_subprocesses_ordered worldOk inputPut runPutOut runPutTr rfl

/-- C9: in every run that completes without raising, exactly one result
line is printed, and it is printed after all pipeline steps have run —
the print event occurs exactly once in the trace and is its last
element. The property holds for both scripts. -/
theorem C9_single_result_line (w w2 : World) (i i2 : Input)
    (out out2 : Output) (tr tr2 : List Event)
    (h : mainImport w i = some (out, tr))
    (h2 : mainFE w2 i2 = some (out2, tr2)) :
    tr.count Event.printOut = 1 ∧ tr.getLast? = some Event.printOut ∧
    tr2.count Event.printOut = 1 ∧ tr2.getLast? = some Event.printOut := by
  obtain ⟨prog, proj, hg, -, htr⟩ := mainImport_eq w i out tr h
  obtain ⟨-, -, -, -, hev⟩ := putOp_spec w i prog proj ⟨w.user, [], [], none⟩
  rw [hev] at htr
  obtain ⟨p2, q2, m2, hg2, hm2, hme2, hcase⟩ := mainFE_eq w2 i2 out2 tr2 h2
  have htr2 : ∃ evs2, tr2 = evs2 ++ [Event.printOut] ∧
      evs2.count Event.printOut = 0 := by
    rcases hcase with ⟨-, -, htr2⟩ | ⟨-, -, -, htr2⟩
    · obtain ⟨-, -, -, -, hev2⟩ :=
        putOp_spec w2 i2 p2 q2 ⟨w2.user, [], [], none⟩
      rw [hev2] at htr2
      refine ⟨_, htr2, ?_⟩
      split_ifs <;> simp [List.count_cons, List.count_nil]
    · obtain ⟨-, -, -, -, hev2, -⟩ :=
        getOp_spec w2 p2 q2 ⟨w2.user, [], [], none⟩
      rw [hev2] at htr2
      refine ⟨_, htr2, ?_⟩
      split_ifs <;> simp [List.count_cons, List.count_nil]
  obtain ⟨evs2, htr2, hc2⟩ := htr2
  have hc1 : ∃ evs1, tr = evs1 ++ [Event.printOut] ∧
      evs1.count Event.printOut = 0 := by
    refine ⟨_, htr, ?_⟩
    split_ifs <;> simp [List.count_cons, List.count_nil]
  obtain ⟨evs1, htr1, hc1⟩ := hc1
  subst htr1
  subst htr2
  refine ⟨?_, ?_, ?_, ?_⟩
  · rw [List.count_append, hc1]
    simp
  · simp
  · rw [List.count_append, hc2]
    simp
  · simp

/-- C9 witness: concrete completed runs of both scripts. -/
theorem C9_single_result_line_witness :
    runPutTr.count Event.printOut = 1 ∧
    runPutTr.getLast? = some Event.printOut ∧
    runGetTr.count Event.printOut = 1 ∧
    runGetTr.getLast? = some Event.printOut :=
  C9_single_result_line worldOk worldOk inputPut inputGet runPutOut
    runGetOut runPutTr runGetTr rfl rfl

/-- C7: the serialized output contains the key `object_id` exactly on the
export path: every completed `fhir_import_export` run with method `get`
(case-insensitive) serializes an `object_id` key, whose value is null
exactly when the read-permission check failed (the export was not
performed); every completed run with method `put` serializes no
`object_id` key. -/
theorem C7_object_id_key_on_get (w : World) (i : Input) (out : Output)
    (tr : List Event) (m : String)
    (h : mainFE w i = some (out, tr)) (hm : i.method = some m) :
    (pyLower m = "get" →
      "object_id" ∈ serializeKeys out ∧
      ∃ r, out.objectId = some r ∧
        ∀ program project, getProgramProject i = some [program, project] →
          (r = none ↔
            (canRead ⟨w.user, [], [], none⟩ program project w.user).2
              = false)) ∧
    (pyLower m = "put" → "object_id" ∉ serializeKeys out) := by
  obtain ⟨p2, q2, m2, hg2, hm2, hme2, hcase⟩ := mainFE_eq w i out tr h
  have hmm : m2 = m := by
    rw [hm] at hm2
    exact (Option.some.inj hm2).symm
  subst hmm
  rcases hcase with ⟨hput, hout, -⟩ | ⟨hnput, hget, hout, -⟩
  · constructor
    · intro hgetm
      exact absurd (hput.symm.trans hgetm) (by decide)
    · intro hputm
      obtain ⟨-, hoid, -, -, -⟩ := putOp_spec w i p2 q2 ⟨w.user, [], [], none⟩
      rw [hout]
      simp [serializeKeys, hoid]
  · constructor
    · intro hgetm
      obtain ⟨-, -, -, -, -, hiff⟩ := getOp_spec w p2 q2 ⟨w.user, [], [], none⟩
      rw [hout]
      refine ⟨by simp [serializeKeys], ?_⟩
      refine ⟨(getOp w p2 q2 ⟨w.user, [], [], none⟩).2.2, by simp, ?_⟩
      intro program project hgp
      rw [hg2] at hgp
      obtain ⟨hp, hq⟩ : p2 = program ∧ q2 = project := by simpa using hgp
      subst hp
      subst hq
      exact hiff
    · intro hputm
      exact absurd hputm hnput

/-- C7 witness: the concrete export run serializes an `object_id` key. -/
theorem C7_object_id_key_on_get_witness :
    (pyLower "get" = "get" →
      "object_id" ∈ serializeKeys runGetOut ∧
      ∃ r, runGetOut.objectId = some r ∧
        ∀ program project,
          getProgramProject inputGet = some [program, project] →
          (r = none ↔
            (canRead ⟨worldOk.user, [], [], none⟩ program project
              worldOk.user).2 = false)) ∧
    (pyLower "get" = "put" → "object_id" ∉ serializeKeys runGetOut) :=
  C7_object_id_key_on_get worldOk inputGet runGetOut runGetTr "get" rfl rfl

/-- C10 counterexample: an input whose `method` is the valid `put` but
whose `project_id` contains no dash: `_main` raises before the method
dispatch and prints no result line, although the claim requires the put
pipeline to run on this input. -/
theorem C10_counterexample :
    (⟨some "ab", none, some "put"⟩ : Input).method = some "put" ∧
    "put" ≠ "" ∧ pyLower "put" = "put" ∧
    mainFE worldOk ⟨some "ab", none, some "put"⟩ = none :=
  ⟨rfl, by decide, rfl, rfl⟩

/-- C10 amended: for inputs whose `project_id` parses into exactly two
parts, `_main` raises and prints no result line whenever the `method`
field is missing, `None` or empty (assertion failure), or whenever its
lowercase form is neither `put` nor `get`; for every other such input the
pipeline for the selected method runs and the run completes. -/
theorem C10_method_dispatch (w : World) (i : Input)
    (program project : String)
    (hp : getProgramProject i = some [program, project]) :
    ((i.method = none ∨ i.method = some "") → mainFE w i = none) ∧
    (∀ m, i.method = some m → m ≠ "" → pyLower m ≠ "put" →
      pyLower m ≠ "get" → mainFE w i = none) ∧
    (∀ m, i.method = some m → m ≠ "" →
      (pyLower m = "put" ∨ pyLower m = "get") →
      ∃ out tr, mainFE w i = some (out, tr)) := by
  refine ⟨?_, ?_, ?_⟩
  · rintro (hm | hm) <;> simp [mainFE, hp, hm]
  · intro m hm hme hnp hng
    simp [mainFE, hp, hm, hme, hnp, hng]
  · intro m hm hme hpg
    by_cases hput : pyLower m = "put"
    · rcases hpp : putOp w i program project ⟨w.user, [], [], none⟩
        with ⟨o1, evs⟩
      refine ⟨o1, evs ++ [Event.printOut], ?_⟩
      simp only [mainFE, hp, hm, hpp]
      rw [if_neg hme, if_pos hput]
    · have hget : pyLower m = "get" := hpg.resolve_left hput
      rcases hpp : getOp w program project ⟨w.user, [], [], none⟩
        with ⟨o1, evs, oid⟩
      refine ⟨{ o1 with objectId := some oid }, evs ++ [Event.printOut], ?_⟩
      simp only [mainFE, hp, hm, hpp]
      rw [if_neg hme, if_neg hput, if_pos hget]

/-- C10 witness: the concrete put input dispatches and completes. -/
theorem C10_method_dispatch_witness :
    ∃ out tr, mainFE worldOk inputPut = some (out, tr) :=
  (C10_method_dispatch worldOk inputPut "aced" "study" rfl).2.2 "put" rfl
    (by decide) (Or.inl rfl)

end AcedEtl
